import Mathlib

/-!
Verification of the nomad event-stream core: a shallow embedding of the
event buffer, the subscription filter, and the publisher, with theorems
settling the specified properties.

Modelling conventions:
* Go slices become lists; a nil slice and an empty slice are both the
  empty list (the code only ever branches on length).
* The opaque payload field is modelled as a natural-number handle.
* time.Time and time.Duration become natural numbers (seconds are fine
  at this granularity); time.Since(t) at instant now is now - t.
* int64 fields become Int; the counters involved stay far from overflow.
* The singly linked list reachable from the buffer head is modelled as
  the list of its nodes from head to tail.
-/

namespace Nomad

/-- An event published on the stream. Mirrors stream.Event: Topic, Key,
Index, and an opaque payload (modelled as a handle). -/
structure Event where
  topic : String
  key : String
  index : Nat
  payload : Nat
  deriving DecidableEq, Repr

/-- Wildcard key: matches every key of a topic. Mirrors the AllKeys
constant of the source. -/
def AllKeys : String := "*"

/-- The interest set of a subscription: a finite map from topic to the
list of keys of interest, modelled as an association list with distinct
topic entries (Go map semantics via lookup). Mirrors SubscribeRequest. -/
structure SubscribeRequest where
  topics : List (String × List String)
  deriving DecidableEq, Repr

/-- Lookup of the key list registered for a topic; none when the topic is
absent, mirroring the ok-flag of a Go map access. -/
def topicKeys (req : SubscribeRequest) (t : String) : Option (List String) :=
  req.topics.lookup t

/-- The per-key match test of the filter inner loop: e.Key == k || k == AllKeys. -/
def keyMatches (e : Event) (k : String) : Bool :=
  e.key == k || k == AllKeys

/-- Number of times the filter inner loop fires for one event: one hit per
listed key of its topic that the event matches. This is the quantity the
first counting pass of the source accumulates per event. -/
def eventMatchCount (req : SubscribeRequest) (e : Event) : Nat :=
  match topicKeys req e.topic with
  | none => 0
  | some ks => (ks.filter (keyMatches e)).length

/-- The value of the count variable after the first pass of filter. -/
def totalMatchCount (req : SubscribeRequest) (events : List Event) : Nat :=
  (events.map (eventMatchCount req)).sum

/-- The slice built by the second pass of filter: for each event, one copy
appended per listed key of its topic that the event matches. -/
def filterBuild (req : SubscribeRequest) (events : List Event) : List Event :=
  events.flatMap (fun e =>
    match topicKeys req e.topic with
    | none => []
    | some ks => (ks.filter (keyMatches e)).map (fun _ => e))

/-- Direct translation of the filter function of subscription.go: return
the input when it is empty, count matches, return empty on zero count,
return the input unchanged when the count equals the input length, and
otherwise build the result slice. -/
def filter (req : SubscribeRequest) (events : List Event) : List Event :=
  if events.isEmpty then events
  else
    let count := totalMatchCount req events
    if count = 0 then []
    else if count = events.length then events
    else filterBuild req events

/-- Modelled from the spec (section Interest set), for comparison with the
source filter: an event matches iff its topic is present and either its
key equals a listed key or a listed key is the wildcard. -/
def matchesSpec (req : SubscribeRequest) (e : Event) : Bool :=
  match topicKeys req e.topic with
  | none => false
  | some ks => ks.any (keyMatches e)

lemma eventMatchCount_pos_iff (req : SubscribeRequest) (e : Event) :
    0 < eventMatchCount req e ↔ matchesSpec req e = true := by
  unfold eventMatchCount matchesSpec
  cases topicKeys req e.topic with
  | none => simp
  | some ks =>
    simp only [List.any_eq_true, List.length_pos, ne_eq,
      List.filter_eq_nil_iff, not_forall, Decidable.not_not]
    tauto

lemma eventMatchCount_eq_ite (req : SubscribeRequest) (e : Event)
    (h : eventMatchCount req e ≤ 1) :
    eventMatchCount req e = if matchesSpec req e then 1 else 0 := by
  by_cases hm : matchesSpec req e = true
  · have := (eventMatchCount_pos_iff req e).2 hm
    simp [hm]; omega
  · have : ¬ 0 < eventMatchCount req e := fun hp =>
      hm ((eventMatchCount_pos_iff req e).1 hp)
    simp only [Bool.not_eq_true] at hm
    simp [hm]; omega

lemma totalMatchCount_eq_filter_length (req : SubscribeRequest)
    (es : List Event) (h : ∀ e ∈ es, eventMatchCount req e ≤ 1) :
    totalMatchCount req es = (es.filter (matchesSpec req)).length := by
  induction es with
  | nil => rfl
  | cons a t ih =>
    have ha := eventMatchCount_eq_ite req a (h a (by simp))
    have ih := ih (fun e he => h e (by simp [he]))
    unfold totalMatchCount at *
    by_cases hm : matchesSpec req a = true
    · simp [List.filter_cons, hm, ha, ih]; omega
    · simp only [Bool.not_eq_true] at hm
      simp [List.filter_cons, hm, ha, ih]

lemma filterBuild_per_event (req : SubscribeRequest) (e : Event) :
    (match topicKeys req e.topic with
      | none => ([] : List Event)
      | some ks => (ks.filter (keyMatches e)).map (fun _ => e)) =
    List.replicate (eventMatchCount req e) e := by
  unfold eventMatchCount
  cases topicKeys req e.topic with
  | none => rfl
  | some ks => exact List.map_const' _ e

lemma filterBuild_eq_filter (req : SubscribeRequest) (es : List Event)
    (h : ∀ e ∈ es, eventMatchCount req e ≤ 1) :
    filterBuild req es = es.filter (matchesSpec req) := by
  induction es with
  | nil => rfl
  | cons a t ih =>
    have ha := eventMatchCount_eq_ite req a (h a (by simp))
    have ih := ih (fun e he => h e (by simp [he]))
    unfold filterBuild at *
    rw [List.flatMap_cons, filterBuild_per_event, ha, ih]
    by_cases hm : matchesSpec req a = true
    · simp [List.filter_cons, hm]
    · simp only [Bool.not_eq_true] at hm
      simp [List.filter_cons, hm]

lemma sum_eq_length_all_one {f : Event → Nat} {es : List Event}
    (h : ∀ e ∈ es, f e ≤ 1) (hsum : (es.map f).sum = es.length) :
    ∀ e ∈ es, f e = 1 := by
  induction es with
  | nil => simp
  | cons a t ih =>
    simp only [List.map_cons, List.sum_cons, List.length_cons] at hsum
    have ha : f a ≤ 1 := h a (by simp)
    have ht : ∀ e ∈ t, f e ≤ 1 := fun e he => h e (by simp [he])
    have htsum : (t.map f).sum ≤ t.length := by
      clear ih hsum ha h
      induction t with
      | nil => simp
      | cons b u ihu =>
        simp only [List.map_cons, List.sum_cons, List.length_cons]
        have hb := ht b (by simp)
        have := ihu (fun e he => ht e (by simp [he]))
        omega
    have hfa : f a = 1 := by omega
    have : (t.map f).sum = t.length := by omega
    intro e he
    rcases List.mem_cons.1 he with rfl | hmem
    · exact hfa
    · exact ih ht this e hmem

lemma sum_eq_zero_all_zero {f : Event → Nat} {es : List Event}
    (hsum : (es.map f).sum = 0) : ∀ e ∈ es, f e = 0 := by
  induction es with
  | nil => simp
  | cons a t ih =>
    simp only [List.map_cons, List.sum_cons, Nat.add_eq_zero] at hsum
    intro e he
    rcases List.mem_cons.1 he with rfl | hmem
    · exact hsum.1
    · exact ih hsum.2 e hmem

lemma filter_eq_spec_filter (req : SubscribeRequest) (es : List Event)
    (h : ∀ e ∈ es, eventMatchCount req e ≤ 1) :
    filter req es = es.filter (matchesSpec req) := by
  unfold filter
  by_cases hne : es.isEmpty
  · simp [List.isEmpty_iff.1 hne]
  · simp only [hne, if_false]
    have hcnt := totalMatchCount_eq_filter_length req es h
    by_cases h0 : totalMatchCount req es = 0
    · have hfil : es.filter (matchesSpec req) = [] :=
        List.length_eq_zero.1 (by rw [← hcnt]; exact h0)
      simp [h0, hfil]
    · simp only [h0, if_false]
      by_cases hall : totalMatchCount req es = es.length
      · have hone : ∀ e ∈ es, eventMatchCount req e = 1 :=
          sum_eq_length_all_one h hall
        have : ∀ e ∈ es, matchesSpec req e = true := fun e he =>
          (eventMatchCount_pos_iff req e).1 (by rw [hone e he]; omega)
        simp [hall, List.filter_eq_self.2 this]
      · simp [hall, filterBuild_eq_filter req es h]

/-- Concrete instance exercising the double-count path of filter: a topic
registered with both a concrete key and the wildcard. -/
def dupReq : SubscribeRequest := { topics := [("jobs", ["a", AllKeys])] }

/-- A single event matching both listed keys of dupReq. -/
def dupEv : Event := { topic := "jobs", key := "a", index := 0, payload := 0 }

/-- C3: the claim as stated is false: the filter of subscription.go counts
an event once per matching listed key, so under dupReq the single matching
event dupEv is returned twice, not exactly once. -/
theorem filter_duplicates_counterexample :
    filter dupReq [dupEv] = [dupEv, dupEv] ∧
    [dupEv].filter (matchesSpec dupReq) = [dupEv] := by
  constructor <;> rfl

/-- C3 (amended): when every event of the input matches at most one listed
key of its topic, filter returns exactly the events that match the request
(topic present, and key equal to a listed key or a listed key the
wildcard), each exactly once, in input order. -/
theorem filter_eq_matching_events (req : SubscribeRequest) (es : List Event)
    (h : ∀ e ∈ es, eventMatchCount req e ≤ 1) :
    filter req es = es.filter (matchesSpec req) :=
  filter_eq_spec_filter req es h

/-- Witness for the amended C3 at a concrete request and event list. -/
theorem filter_eq_matching_events_witness :
    (∀ e ∈ [dupEv], eventMatchCount { topics := [("jobs", ["a"])] } e ≤ 1) ∧
    filter { topics := [("jobs", ["a"])] } [dupEv] =
      [dupEv].filter (matchesSpec { topics := [("jobs", ["a"])] }) :=
  ⟨by decide, filter_eq_matching_events _ [dupEv] (by decide)⟩

/-- C4: the claim as stated is false: filter is not idempotent, because a
doubled event doubles again on the second pass (two copies in, four out). -/
theorem filter_not_idempotent_counterexample :
    filter dupReq (filter dupReq [dupEv]) ≠ filter dupReq [dupEv] := by
  decide

/-- C4 (amended): when every event of the input matches at most one listed
key of its topic, filter is idempotent. -/
theorem filter_idempotent (req : SubscribeRequest) (es : List Event)
    (h : ∀ e ∈ es, eventMatchCount req e ≤ 1) :
    filter req (filter req es) = filter req es := by
  rw [filter_eq_spec_filter req es h]
  have hsub : ∀ e ∈ es.filter (matchesSpec req), eventMatchCount req e ≤ 1 :=
    fun e he => h e (List.mem_of_mem_filter he)
  rw [filter_eq_spec_filter req _ hsub]
  simp [List.filter_filter]

/-- Witness for the amended C4 at a concrete request and event list. -/
theorem filter_idempotent_witness :
    (∀ e ∈ [dupEv], eventMatchCount { topics := [("jobs", ["a"])] } e ≤ 1) ∧
    filter { topics := [("jobs", ["a"])] }
        (filter { topics := [("jobs", ["a"])] } [dupEv]) =
      filter { topics := [("jobs", ["a"])] } [dupEv] :=
  ⟨by decide, filter_idempotent _ [dupEv] (by decide)⟩

/-- C5: the claim as stated is false: dupReq covers the one event of the
list (it matches), yet filter does not return the input unchanged, because
the event matches two listed keys and the count pass sees two matches. -/
theorem filter_covered_counterexample :
    matchesSpec dupReq dupEv = true ∧ filter dupReq [dupEv] ≠ [dupEv] := by
  constructor
  · rfl
  · decide

/-- C5 (amended): when every event of the input matches exactly one listed
key of its topic (in particular the request covers every event), filter
returns the input unchanged. -/
theorem filter_covered_id (req : SubscribeRequest) (es : List Event)
    (h : ∀ e ∈ es, eventMatchCount req e = 1) :
    filter req es = es := by
  rw [filter_eq_spec_filter req es (fun e he => by rw [h e he])]
  exact List.filter_eq_self.2 fun e he =>
    (eventMatchCount_pos_iff req e).1 (by rw [h e he]; omega)

/-- Witness for the amended C5 at a concrete request and event list. -/
theorem filter_covered_id_witness :
    (∀ e ∈ [dupEv], eventMatchCount { topics := [("jobs", ["a"])] } e = 1) ∧
    filter { topics := [("jobs", ["a"])] } [dupEv] = [dupEv] :=
  ⟨by decide, filter_covered_id _ [dupEv] (by decide)⟩

/-- One node of the event buffer. Mirrors bufferItem: Events (nil slice
modelled as the empty list), Index, Err, createdAt. The bufferLink channel
states are not part of the functional state; the channel operations appear
as logged actions (see BufAction) and as oracle inputs to the cursor. -/
structure BufferItem where
  index : Nat
  events : List Event
  err : Option String
  createdAt : Nat
  deriving DecidableEq, Repr, Inhabited

/-- Mirrors newBufferItem: a blank item carrying the given index and
events, no error, created at the given instant. -/
def newBufferItem (index : Nat) (events : List Event) (now : Nat) : BufferItem :=
  { index := index, events := events, err := none, createdAt := now }

/-- The event buffer. The singly linked chain reachable from head is the
list items (head first, tail last); size, maxSize and maxItemTTL mirror
the fields of eventBuffer. -/
structure EventBuffer where
  items : List BufferItem
  size : Int
  maxSize : Int
  maxItemTTL : Nat
  deriving DecidableEq, Repr

/-- Mirrors newEventBuffer. Note the source constructs the struct with
only maxSize and size populated: the maxItemTTL argument is accepted but
never stored, so the field keeps its zero value. The embedding reproduces
that faithfully (the unused binder mirrors the unused Go parameter). -/
def newEventBuffer (size : Int) (maxItemTTL : Nat) (now : Nat) : EventBuffer :=
  let _ := maxItemTTL
  { items := [newBufferItem 0 [] now], size := 0, maxSize := size, maxItemTTL := 0 }

/-- Labels for the primitive mutation and notification steps of the
writer, used to record the order in which appendItem and advanceHead
perform them. -/
inductive BufAction where
  | storeNext
  | storeTail
  | incSize
  | closeDropped
  | storeHead
  | decSize
  | closeReady
  deriving DecidableEq, Repr

/-- Buffer state together with the trace of writer actions performed so
far, so that ordering claims about append can be stated. -/
structure BufState where
  buf : EventBuffer
  log : List BufAction
  deriving DecidableEq, Repr

/-- Mirrors advanceHead: close the dropped channel of the old head, store
its successor into head (dropping the first chain node), decrement size. -/
def advanceHead (s : BufState) : BufState :=
  { buf := { s.buf with items := s.buf.items.tail, size := s.buf.size - 1 },
    log := s.log ++ [.closeDropped, .storeHead, .decSize] }

/-- Mirrors appendItem line by line: store the item into the next pointer
of the old tail (the item becomes the last chain node), store it into tail
(in this model the tail is the last chain node, so only the action is
recorded), increment size, advance the head if the new size exceeds
maxSize, and finally close the ready channel of the old tail. -/
def appendItem (item : BufferItem) (s : BufState) : BufState :=
  let s1 : BufState :=
    { buf := { s.buf with items := s.buf.items ++ [item] },
      log := s.log ++ [.storeNext] }
  let s2 : BufState := { s1 with log := s1.log ++ [.storeTail] }
  let s3 : BufState :=
    { buf := { s2.buf with size := s2.buf.size + 1 },
      log := s2.log ++ [.incSize] }
  let s4 : BufState := if s3.buf.size > s3.buf.maxSize then advanceHead s3 else s3
  { s4 with log := s4.log ++ [.closeReady] }

/-- Mirrors Append: wrap the index and events in a fresh item and append it. -/
def Append (index : Nat) (events : List Event) (now : Nat) (s : BufState) : BufState :=
  appendItem (newBufferItem index events now) s

/-- Mirrors prune: loop, loading the head (Head requires a stored head
node; the empty-chain guard models that precondition and is unreachable
for initialized buffers), returning when the size is zero, advancing the
head while its age exceeds maxItemTTL, and stopping at the first young
enough head. -/
def prune (now : Nat) (s : BufState) : BufState :=
  if s.buf.items.isEmpty then s
  else if s.buf.size = 0 then s
  else if now - s.buf.items.headI.createdAt > s.buf.maxItemTTL then
    prune now (advanceHead s)
  else s
termination_by s.buf.items.length
decreasing_by
  simp only [advanceHead, List.length_tail]
  rename_i hn _ _
  simp only [List.isEmpty_iff, ← List.length_eq_zero] at hn
  omega

/-- The segment of writer actions recorded by one call starting from
state s: everything the call appended after the log it was given. -/
def newActions (s s2 : BufState) : List BufAction :=
  s2.log.drop s.log.length

/-- C1: appendItem performs its steps in order: it stores the new item
into the next pointer of the old tail, then stores it into tail, then
increments size, then advances the head exactly when the new size exceeds
maxSize, and only then closes the ready channel of the old tail; in
particular the next pointer is set first and the ready channel closes
last. -/
theorem appendItem_action_order (item : BufferItem) (s : BufState) :
    newActions s (appendItem item s) =
      [.storeNext, .storeTail, .incSize] ++
        (if s.buf.size + 1 > s.buf.maxSize then
          [.closeDropped, .storeHead, .decSize] else []) ++
        [.closeReady] ∧
    (newActions s (appendItem item s)).head? = some .storeNext ∧
    (newActions s (appendItem item s)).getLast? = some .closeReady := by
  by_cases hc : s.buf.size + 1 > s.buf.maxSize <;>
    simp [newActions, appendItem, advanceHead, hc, List.drop_left]

/-- C2: an append from a state with size at most maxSize leaves size at
most maxSize; when the incremented size exceeds maxSize the append
performs exactly one head advance and leaves size equal to maxSize. -/
theorem appendItem_size_bound (item : BufferItem) (s : BufState)
    (h : s.buf.size ≤ s.buf.maxSize) :
    (appendItem item s).buf.maxSize = s.buf.maxSize ∧
    (appendItem item s).buf.size ≤ s.buf.maxSize ∧
    (s.buf.size + 1 > s.buf.maxSize →
      (appendItem item s).buf.size = s.buf.maxSize ∧
      (newActions s (appendItem item s)).count .storeHead = 1) := by
  by_cases hc : s.buf.size + 1 > s.buf.maxSize <;>
    simp [newActions, appendItem, advanceHead, hc, List.drop_left] <;>
    omega

/-- Witness for C2 at a concrete buffer of capacity zero: the append
overflows at once, advances the head once, and restores size zero. -/
theorem appendItem_size_bound_witness :
    ((⟨newEventBuffer 0 0 0, []⟩ : BufState).buf.size ≤
      (⟨newEventBuffer 0 0 0, []⟩ : BufState).buf.maxSize) ∧
    (appendItem (newBufferItem 1 [] 0) ⟨newEventBuffer 0 0 0, []⟩).buf.size ≤
      (⟨newEventBuffer 0 0 0, []⟩ : BufState).buf.maxSize :=
  ⟨by decide,
    (appendItem_size_bound (newBufferItem 1 [] 0) ⟨newEventBuffer 0 0 0, []⟩
      (by decide)).2.1⟩

/-- Buffer states reachable from construction by appends, head advances
performed while the size is positive (the precondition under which the
source dereferences the next pointer of the head), and prunes. -/
inductive Reachable : BufState → Prop where
  | init : ∀ sz ttl now, Reachable ⟨newEventBuffer sz ttl now, []⟩
  | append : ∀ s item, Reachable s → Reachable (appendItem item s)
  | advance : ∀ s, Reachable s → 0 < s.buf.size → Reachable (advanceHead s)
  | pruneStep : ∀ s now, Reachable s → Reachable (prune now s)

lemma prune_preserves_count (now : Nat) (s : BufState)
    (h : (s.buf.items.length : Int) = s.buf.size + 1) :
    ((prune now s).buf.items.length : Int) = (prune now s).buf.size + 1 := by
  induction s using prune.induct now with
  | case1 s hnil => rw [prune]; simp only [hnil, if_true]; exact h
  | case2 s hnil hsz => rw [prune]; simp only [hnil, hsz, if_true, if_false]; exact h
  | case3 s hnil hsz hage ih =>
    rw [prune]
    simp only [hnil, hsz, hage, if_true, if_false, reduceIte]
    apply ih
    have hlen : s.buf.items.length ≠ 0 := by
      simpa [List.isEmpty_iff, ← List.length_eq_zero] using hnil
    simp only [advanceHead, List.length_tail]
    omega
  | case4 s hnil hsz hage =>
    rw [prune]
    simp only [hnil, hsz, hage, if_true, if_false, reduceIte]
    exact h

/-- C7: the claim as stated is false: at construction the size field is
zero while one item (the sentinel) is reachable from head, so size does
not equal the count of reachable items inclusive of the sentinel. -/
theorem size_excludes_sentinel_counterexample :
    Reachable (⟨newEventBuffer 10 3600 0, []⟩ : BufState) ∧
    (⟨newEventBuffer 10 3600 0, []⟩ : BufState).buf.size ≠
      ((⟨newEventBuffer 10 3600 0, []⟩ : BufState).buf.items.length : Int) :=
  ⟨.init 10 3600 0, by decide⟩

/-- C7 (amended): in every state reachable from construction by Append,
advanceHead and prune, the number of items reachable from head equals
size plus one: size counts the appended live items and excludes the
sentinel position occupied by the head. -/
theorem reachable_size_invariant (s : BufState) (h : Reachable s) :
    (s.buf.items.length : Int) = s.buf.size + 1 := by
  induction h with
  | init sz ttl now => simp [newEventBuffer, newBufferItem]
  | append s item _ ih =>
    simp only [appendItem, advanceHead, gt_iff_lt]
    by_cases hc : s.buf.maxSize < s.buf.size + 1
    · simp only [if_pos hc, List.length_tail, List.length_append,
        List.length_cons, List.length_nil]
      omega
    · simp only [if_neg hc, List.length_append, List.length_cons,
        List.length_nil]
      omega
  | advance s _ hpos ih =>
    have hlen : s.buf.items.length ≠ 0 := by omega
    simp only [advanceHead, List.length_tail]
    omega
  | pruneStep s now _ ih => exact prune_preserves_count now s ih

/-- Witness for the amended C7 at a freshly constructed buffer. -/
theorem reachable_size_invariant_witness :
    Reachable (⟨newEventBuffer 10 3600 0, []⟩ : BufState) ∧
    (((⟨newEventBuffer 10 3600 0, []⟩ : BufState).buf.items.length : Int) =
      (⟨newEventBuffer 10 3600 0, []⟩ : BufState).buf.size + 1) :=
  ⟨.init 10 3600 0, reachable_size_invariant _ (.init 10 3600 0)⟩

/-- C6: the code contradicts the claim: newEventBuffer never stores its
maxItemTTL argument, so the field keeps its zero value, and prune evicts
every item older than zero. Constructing a buffer with a one hour TTL,
appending one batch at instant 0 and pruning at instant 1 evicts the one
second old content (size drops from 1 to 0) although the claim requires
items younger than the TTL to survive. -/
theorem prune_ignores_requested_ttl :
    (newEventBuffer 10 3600 0).maxItemTTL = 0 ∧
    (Append 1 [⟨"jobs", "a", 1, 0⟩] 0 ⟨newEventBuffer 10 3600 0, []⟩).buf.size = 1 ∧
    (prune 1 (Append 1 [⟨"jobs", "a", 1, 0⟩] 0
      ⟨newEventBuffer 10 3600 0, []⟩)).buf.size = 0 := by
  refine ⟨rfl, by decide, ?_⟩
  rw [prune]
  norm_num [Append, appendItem, newEventBuffer, newBufferItem, advanceHead]
  rw [prune]
  norm_num [advanceHead]

/-- The message handed from Publish to the writer goroutine. Mirrors
changeEvents. -/
structure ChangeEvents where
  index : Nat
  events : List Event
  deriving DecidableEq, Repr

/-- Mirrors Publish: deliver the batch to the writer over the hand-off
channel only when the events slice is nonempty; none models no message
sent. -/
def publish (index : Nat) (events : List Event) : Option ChangeEvents :=
  if events.length > 0 then some ⟨index, events⟩ else none

/-- Mirrors sendEvents: the writer appends the delivered batch. -/
def sendEvents (now : Nat) (update : ChangeEvents) (s : BufState) : BufState :=
  Append update.index update.events now s

/-- The effect of one Publish call on the buffer: the writer applies
sendEvents exactly to the messages Publish delivers. -/
def publishEffect (now index : Nat) (events : List Event) (s : BufState) : BufState :=
  match publish index events with
  | none => s
  | some update => sendEvents now update s

/-- C9: a Publish with an empty events slice delivers nothing to the
writer and leaves the buffer state, in particular its size and the
identity of its tail, unchanged. -/
theorem publish_empty_noop (index now : Nat) (s : BufState) :
    publish index [] = none ∧
    publishEffect now index [] s = s ∧
    (publishEffect now index [] s).buf.size = s.buf.size ∧
    (publishEffect now index [] s).buf.items.getLast? = s.buf.items.getLast? :=
  ⟨rfl, rfl, rfl, rfl⟩

/-- The outcome of the blocking select at the top of bufferItem.Next: the
branch that fires first. This resolves the only nondeterminism of the
function; everything after the select is sequential. -/
inductive SelectBranch where
  | ctxDone
  | forceClosed
  | ready
  deriving DecidableEq, Repr

/-- The typed failures of the cursor step, mirroring the error values the
source returns: the context error, the subscription closed error, the
event dropped from buffer error, the invalid next item error, and the
error carried on the successor item. -/
inductive NextError where
  | cancelled
  | subscriptionClosed
  | slowReader
  | invalidNext
  | carried (msg : String)
  deriving DecidableEq, Repr

/-- Mirrors bufferItem.Next: the select outcome decides cancellation and
forced closure; after the ready channel closes, a closed dropped channel
means the reader fell behind; the next pointer loaded afterwards must be
set; a successor carrying an error propagates it; otherwise the successor
is returned. The select branch, the dropped channel state and the loaded
next pointer are passed in as what the channels held at the call. -/
def bufferItemNext (branch : SelectBranch) (droppedClosed : Bool)
    (next : Option BufferItem) : Except NextError BufferItem :=
  match branch with
  | .ctxDone => .error .cancelled
  | .forceClosed => .error .subscriptionClosed
  | .ready =>
    if droppedClosed then .error .slowReader
    else
      match next with
      | none => .error .invalidNext
      | some n =>
        match n.err with
        | some msg => .error (.carried msg)
        | none => .ok n

/-- C8: bufferItemNext returns the distinct typed failures the claim
names: Cancelled when the cancellation branch fires, SubscriptionClosed
when the force-close branch fires, SlowReader when the dropped channel
has closed once the ready branch fires, the carried error when the
successor holds one, and the successor item itself otherwise. -/
theorem bufferItemNext_cases (d : Bool) (next : Option BufferItem)
    (n : BufferItem) (msg : String) :
    bufferItemNext .ctxDone d next = .error .cancelled ∧
    bufferItemNext .forceClosed d next = .error .subscriptionClosed ∧
    bufferItemNext .ready true next = .error .slowReader ∧
    (n.err = some msg → bufferItemNext .ready false (some n) = .error (.carried msg)) ∧
    (n.err = none → bufferItemNext .ready false (some n) = .ok n) := by
  refine ⟨rfl, rfl, rfl, fun he => ?_, fun he => ?_⟩ <;>
    simp [bufferItemNext, he]

/-- Witness for C8 at concrete items, discharging both error-field
hypotheses. -/
theorem bufferItemNext_cases_witness :
    bufferItemNext .ready false (some ⟨2, [], some "boom", 0⟩) =
      .error (.carried "boom") ∧
    bufferItemNext .ready false (some ⟨2, [], none, 0⟩) =
      .ok ⟨2, [], none, 0⟩ :=
  ⟨(bufferItemNext_cases false none ⟨2, [], some "boom", 0⟩ "boom").2.2.2.1 rfl,
    (bufferItemNext_cases false none ⟨2, [], none, 0⟩ "boom").2.2.2.2 rfl⟩

/-- A subscription: the closed flag models the atomically read state
word, currentItem the cursor, req the interest set. Mirrors Subscription
(the force-close channel is part of the cursor step oracle). -/
structure Subscription where
  closed : Bool
  currentItem : BufferItem
  req : SubscribeRequest
  deriving DecidableEq, Repr

/-- The read loop of Subscription.Next, with the successive outcomes of
the cursor steps supplied as an oracle list (each entry is what
currentItem.Next returned on that iteration). An exhausted oracle models
a call still blocked in the cursor step, reported as none. On a cursor
error the loop returns without moving the cursor, re-reading the state
word as the source does; on success it advances the cursor, returns the
filtered events when nonempty and loops otherwise. -/
def subscriptionNextLoop (closed : Bool) (req : SubscribeRequest)
    (cur : BufferItem) :
    List (Except NextError BufferItem) →
      Option (Except NextError (List Event)) × BufferItem
  | [] => (none, cur)
  | step :: rest =>
    match step with
    | .error e =>
      if closed then (some (.error .subscriptionClosed), cur)
      else (some (.error e), cur)
    | .ok next =>
      let events := filter req next.events
      if events.isEmpty then subscriptionNextLoop closed req next rest
      else (some (.ok events), next)

/-- Mirrors Subscription.Next: return SubscriptionClosed at once when the
state word reads closed, otherwise run the read loop and store the final
cursor back into the subscription. -/
def subscriptionNext (s : Subscription)
    (oracle : List (Except NextError BufferItem)) :
    Option (Except NextError (List Event)) × Subscription :=
  if s.closed then (some (.error .subscriptionClosed), s)
  else
    let r := subscriptionNextLoop s.closed s.req s.currentItem oracle
    (r.1, { s with currentItem := r.2 })

/-- Concrete open subscription parked on the sentinel with an empty
interest set. -/
def ceSub : Subscription :=
  { closed := false,
    currentItem := newBufferItem 0 [] 0,
    req := { topics := [] } }

/-- An item whose events filter to nothing under the empty interest set. -/
def ceItem : BufferItem :=
  { index := 1, events := [⟨"jobs", "a", 1, 0⟩], err := none, createdAt := 0 }

/-- C10: the claim as stated is false: a first cursor step that succeeds
with an item whose filtered events are empty advances the cursor, and a
second step that fails makes Next return that error with the cursor no
longer at its value from the start of the call. -/
theorem subscriptionNext_error_moves_cursor_counterexample :
    (subscriptionNext ceSub [.ok ceItem, .error .cancelled]).1 =
      some (.error .cancelled) ∧
    (subscriptionNext ceSub [.ok ceItem, .error .cancelled]).2.currentItem ≠
      ceSub.currentItem := by
  constructor
  · rfl
  · decide

/-- C10 (amended): the cursor advances only on successful cursor steps:
when the first cursor step fails, Next returns that error with the cursor
unchanged from the start of the call, and in general the cursor ends
either where it started or on an item some successful cursor step
returned, so a failing Next resumes from the last successfully reached
buffer position. -/
lemma subscriptionNextLoop_cursor (closed : Bool) (req : SubscribeRequest)
    (o : List (Except NextError BufferItem)) :
    ∀ cur : BufferItem,
      (subscriptionNextLoop closed req cur o).2 = cur ∨
        .ok (subscriptionNextLoop closed req cur o).2 ∈ o := by
  induction o with
  | nil => intro cur; left; rfl
  | cons step rest ih =>
    intro cur
    cases step with
    | error e2 =>
      by_cases hc : closed = true <;> simp [subscriptionNextLoop, hc]
    | ok next =>
      by_cases he : (filter req next.events).isEmpty
      · simp only [subscriptionNextLoop, he, if_true]
        rcases ih next with h1 | h2
        · right; rw [h1]; exact List.mem_cons_self _ _
        · right; exact List.mem_cons_of_mem _ h2
      · simp only [subscriptionNextLoop, he, Bool.false_eq_true, if_false]
        right
        exact List.mem_cons_self _ _

theorem subscriptionNext_cursor_advance (s : Subscription) (e : NextError)
    (rest oracle : List (Except NextError BufferItem)) :
    (subscriptionNext s (.error e :: rest)).2.currentItem = s.currentItem ∧
    ((subscriptionNext s oracle).2.currentItem = s.currentItem ∨
      .ok (subscriptionNext s oracle).2.currentItem ∈ oracle) := by
  constructor
  · cases hcl : s.closed <;>
      simp [subscriptionNext, subscriptionNextLoop, hcl]
  · cases hcl : s.closed with
    | true => left; simp [subscriptionNext, hcl]
    | false =>
      simp only [subscriptionNext, hcl, Bool.false_eq_true, if_false]
      exact subscriptionNextLoop_cursor false s.req oracle s.currentItem

end Nomad
